import Mathlib

set_option linter.unusedVariables false

/-!
Verification of the Finance-Navigator calculation core
(`backend/main.py`: progressive tax, loan amortization, prepay-vs-invest
comparison).

The Python code computes with IEEE floats; the embedding idealizes float
arithmetic as exact rational arithmetic and models Python's decimal
rounding (`round(x, nd)`, banker's rounding / round-half-to-even)
explicitly, since the code rounds at 2 and 10 decimal places at the
places where it matters.  Fallible paths (Python exceptions) are made
explicit: `ZeroDivisionError` becomes `Option.none`, the comparator's
`HTTPException` ("payment too small") becomes `Except.error`.
-/

namespace FinNav

/-- Python's built-in `round` to an integer: round half to even. -/
def pyRound (q : ℚ) : ℤ :=
  if q - ⌊q⌋ < 1/2 then ⌊q⌋
  else if 1/2 < q - ⌊q⌋ then ⌊q⌋ + 1
  else if ⌊q⌋ % 2 = 0 then ⌊q⌋ else ⌊q⌋ + 1

/-- Python `round(x, 2)`. -/
def round2 (q : ℚ) : ℚ := (pyRound (q * 100) : ℚ) / 100

/-- Python `round(x, 10)`. -/
def round10 (q : ℚ) : ℚ := (pyRound (q * 10^10) : ℚ) / 10^10

/-- Python `round(x, 1)`. -/
def round1 (q : ℚ) : ℚ := (pyRound (q * 10) : ℚ) / 10

/-- A tax slab `{"upto": float | None, "rate": float}`; `none` means the
slab is unbounded ("no limit"). -/
structure Slab where
  upto : Option ℚ
  rate : ℚ
deriving DecidableEq

/-- One breakdown entry produced by `compute_progressive_tax`.
`band_from` is the running previous cap; it is `none` when the previous
cap was `float("inf")` (only reachable for a slab after an unbounded
slab).  `band_to` is the slab's cap (`none` = unbounded). -/
structure TaxBand where
  band_from : Option ℚ
  band_to : Option ℚ
  taxable : ℚ
  rate : ℚ
  tax : ℚ
deriving DecidableEq

/-- Result of `compute_progressive_tax`. -/
structure TaxResult where
  tax_due : ℚ
  breakdown : List TaxBand
deriving DecidableEq

/-- The band computation `max(0.0, min(cap - prev_cap, remaining))`
(main.py line 64), split on whether `cap` or `prev_cap` is infinite
(`none`), following float semantics: `inf - finite = inf`, so the band
is `max(0, remaining)`; a previous infinite cap makes `cap - prev_cap`
be `-inf` or `nan`, and the band is `0` either way. -/
def taxBandOf (prevCap upto : Option ℚ) (remaining : ℚ) : ℚ :=
  match prevCap with
  | none => 0
  | some pc =>
    match upto with
    | none => max 0 remaining
    | some c => max 0 (min (c - pc) remaining)

/-- The breakdown entry appended for one slab (main.py line 66). -/
def taxEntryOf (s : Slab) (prevCap : Option ℚ) (band : ℚ) : TaxBand :=
  { band_from := prevCap, band_to := s.upto,
    taxable := round2 band, rate := s.rate, tax := round2 (band * s.rate) }

/-- The `for slab in slabs` loop of `compute_progressive_tax`
(main.py lines 60-71).  Arguments: the slabs still to process, the
`remaining` income, the previous cap (`none` = infinity).  Returns the
accumulated un-rounded `tax` and the breakdown list; the loop
short-circuits once `remaining ≤ 0`. -/
def taxLoop : List Slab → ℚ → Option ℚ → ℚ × List TaxBand
  | [], _, _ => (0, [])
  | s :: rest, remaining, prevCap =>
    let band := taxBandOf prevCap s.upto remaining
    let entry := taxEntryOf s prevCap band
    if remaining - band ≤ 0 then (band * s.rate, [entry])
    else
      let rec' := taxLoop rest (remaining - band) s.upto
      (band * s.rate + rec'.1, entry :: rec'.2)

/-- `compute_progressive_tax` (main.py lines 51-72). -/
def compute_progressive_tax (taxable_income : ℚ) (slabs : List Slab) : TaxResult :=
  let res := taxLoop slabs taxable_income (some 0)
  { tax_due := round2 res.1, breakdown := res.2 }

/-- The default slab table of `TaxRequest` (main.py lines 23-28). -/
def defaultSlabs : List Slab :=
  [ { upto := some 250000, rate := 0 },
    { upto := some 500000, rate := 5/100 },
    { upto := some 1000000, rate := 20/100 },
    { upto := none, rate := 30/100 } ]

/-- One row of the amortization schedule (main.py lines 111-117).
All fields are the displayed (2-decimal rounded) values. -/
structure AmEntry where
  period : ℕ
  payment : ℚ
  principal_paid : ℚ
  interest_paid : ℚ
  remaining_balance : ℚ
deriving DecidableEq

/-- Result of `amortization_schedule` (main.py lines 120-125). -/
structure AmResult where
  periods : ℤ
  payment : ℚ
  total_interest : ℚ
  schedule : List AmEntry
deriving DecidableEq

/-- The fixed-payment computation of `amortization_schedule`
(main.py lines 90-94).  `none` models the `ZeroDivisionError` raised by
Python when the annuity denominator `1 - (1+rp)**(-n)` is zero (e.g.
`n = 0` with a nonzero rate), or when `(1+rp)**(-n)` itself divides by
zero (`1+rp = 0` with `n > 0`). -/
def annuityPayment (principal r rp : ℚ) (n : ℤ) : Option ℚ :=
  if r = 0 then some (if 0 < n then principal / (n : ℚ) else principal)
  else if 1 + rp = 0 ∧ 0 < n then none
  else if 1 - (1 + rp) ^ (-n) = 0 then none
  else some (principal * rp / (1 - (1 + rp) ^ (-n)))

/-- One iteration of the amortization loop body (main.py lines 99-109):
computes `(interest, principal_pay, payment, balance)` after the
iteration, including the final-period clamp and the
`round(balance - principal_pay, 10)` balance update. -/
def amStep (r rp pay bal : ℚ) : ℚ × ℚ × ℚ × ℚ :=
  let interest : ℚ := if r = 0 then 0 else bal * rp
  let pp0 : ℚ := if r = 0 then pay else pay - interest
  let pp : ℚ := if pp0 > bal then bal else pp0
  let payment' : ℚ := if pp0 > bal then pp + interest else pay
  (interest, pp, payment', round10 (bal - pp))

/-- The schedule row appended by the amortization loop
(main.py lines 111-117), from the period number and the step data. -/
def amEntryOf (i : ℕ) (st : ℚ × ℚ × ℚ × ℚ) : AmEntry :=
  { period := i, payment := round2 st.2.2.1,
    principal_paid := round2 st.2.1, interest_paid := round2 st.1,
    remaining_balance := round2 (if st.2.2.2 > 0 then st.2.2.2 else 0) }

/-- The `for i in range(1, n+1)` loop of `amortization_schedule`
(main.py lines 98-119).  Arguments: remaining periods (fuel), current
period number `i`, the running `payment`, the running `balance`.
Returns `(final payment, final balance, total_interest, schedule)`.
The loop breaks once the rounded balance is `≤ 0`. -/
def amLoop (r rp : ℚ) : ℕ → ℕ → ℚ → ℚ → ℚ × ℚ × ℚ × List AmEntry
  | 0, _i, payment, balance => (payment, balance, 0, [])
  | fuel + 1, i, payment, balance =>
    let st := amStep r rp payment balance
    let entry := amEntryOf i st
    if st.2.2.2 ≤ 0 then (st.2.2.1, st.2.2.2, st.1, [entry])
    else
      let rec' := amLoop r rp fuel (i + 1) st.2.2.1 st.2.2.2
      (rec'.1, rec'.2.1, st.1 + rec'.2.2.1, entry :: rec'.2.2.2)

/-- `amortization_schedule` (main.py lines 87-125).  `payments_per_year`
is a positive integer (pydantic `ge=1`); `none` models an unhandled
`ZeroDivisionError` (see `annuityPayment`). -/
def amortization_schedule (principal annual_rate_pct years : ℚ)
    (payments_per_year : ℕ) : Option AmResult :=
  let r := annual_rate_pct / 100
  let n : ℤ := pyRound (years * payments_per_year)
  let rp := r / payments_per_year
  match annuityPayment principal r rp n with
  | none => none
  | some payment =>
    let res := amLoop r rp n.toNat 1 payment principal
    some { periods := n, payment := round2 res.1,
           total_interest := round2 res.2.2.1, schedule := res.2.2.2 }

/-- The `with_extra` part of the comparator's result (main.py line 178). -/
structure WithExtra where
  payment : ℚ
  payoff_periods : ℕ
  total_interest : ℚ
  schedule_sample : List AmEntry
deriving DecidableEq

/-- Result of `prepay_vs_invest` (main.py lines 176-183); the fixed
`advice` string is omitted (static text). -/
structure PrepayResult where
  base : AmResult
  with_extra : WithExtra
  payoff_months_equivalent : ℚ
  interest_saved : ℚ
  invest_future_value_of_extra : ℚ
deriving DecidableEq

/-- One iteration of the comparator loop body (main.py lines 153-162),
in the non-error case: `(interest, principal_paid, payment, balance)`
after the iteration.  The balance is updated without rounding. -/
def cmpStep (rp pay bal : ℚ) : ℚ × ℚ × ℚ × ℚ :=
  let interest : ℚ := bal * rp
  let pp0 : ℚ := pay - interest
  let pp : ℚ := if pp0 > bal then bal else pp0
  let payment' : ℚ := if pp0 > bal then pp + interest else pay
  (interest, pp, payment', bal - pp)

/-- The schedule row appended by the comparator loop (main.py line 164),
from the period number and the step data. -/
def cmpEntryOf (i : ℕ) (st : ℚ × ℚ × ℚ × ℚ) : AmEntry :=
  { period := i, payment := round2 st.2.2.1,
    principal_paid := round2 st.2.1, interest_paid := round2 st.1,
    remaining_balance := round2 (max st.2.2.2 0) }

/-- The `while balance > 0.0001 and period < n_max` loop of
`prepay_vs_invest` (main.py lines 152-164).  Arguments: remaining
periods until the safety cap (fuel), current period, the running
`payment`, the running `balance`.  `Except.error ()` models
`HTTPException(400, "Extra payment too small ...")` raised when
`principal_paid ≤ 0`; `.ok` returns
`(final payment, period count, total_interest, schedule)`. -/
def simLoop (rp : ℚ) : ℕ → ℕ → ℚ → ℚ → Except Unit (ℚ × ℕ × ℚ × List AmEntry)
  | 0, period, payment, _balance => .ok (payment, period, 0, [])
  | fuel + 1, period, payment, balance =>
    if balance > 1/10000 then
      if payment - balance * rp ≤ 0 then .error ()
      else
        let st := cmpStep rp payment balance
        let entry := cmpEntryOf (period + 1) st
        match simLoop rp fuel (period + 1) st.2.2.1 st.2.2.2 with
        | .error e => .error e
        | .ok res => .ok (res.1, res.2.1, st.1 + res.2.2.1, entry :: res.2.2.2)
    else .ok (payment, period, 0, [])

/-- `prepay_vs_invest` (main.py lines 136-183) for a validated
`PrepayScenario` (`years` is an integer there).  The outer `Option`
models an unhandled `ZeroDivisionError` inside the baseline
`amortization_schedule` call; the inner `Except` models the
`HTTPException` client error for an insufficient payment. -/
def prepay_vs_invest (principal annual_rate_pct : ℚ) (years : ℕ)
    (extra_monthly : ℚ) (payments_per_year : ℕ) (invest_rate_pct : ℚ) :
    Option (Except Unit PrepayResult) :=
  match amortization_schedule principal annual_rate_pct years payments_per_year with
  | none => none
  | some base =>
    let scaled_extra := extra_monthly * ((payments_per_year : ℚ) / 12)
    let r := annual_rate_pct / 100
    let n_max : ℕ := years * payments_per_year * 5
    let rp := r / payments_per_year
    let payment := base.payment + scaled_extra
    match simLoop rp n_max 0 payment principal with
    | .error e => some (.error e)
    | .ok res =>
      let payoff_months := (res.2.1 : ℚ) / ((payments_per_year : ℚ) / 12)
      let invest_r := invest_rate_pct / 100
      let monthly_invest_r := invest_r / 12
      let months : ℕ := years * 12
      let fv : ℚ :=
        if monthly_invest_r = 0 then extra_monthly * months
        else extra_monthly * (((1 + monthly_invest_r) ^ months - 1) / monthly_invest_r)
      let interest_saved := base.total_interest - res.2.2.1
      some (.ok
        { base := base,
          with_extra :=
            { payment := round2 res.1, payoff_periods := res.2.1,
              total_interest := round2 res.2.2.1,
              schedule_sample := res.2.2.2.take 6 },
          payoff_months_equivalent := round1 payoff_months,
          interest_saved := round2 interest_saved,
          invest_future_value_of_extra := round2 fv })

/-- One step of the comparator's balance recurrence, ignoring the
final-period clamp: the balance decreases by `payment - interest`. -/
def simStep (rp pay b : ℚ) : ℚ := b - (pay - b * rp)

/-- The pure (clamp-free) balance sequence of the comparator's loop:
`balSeq rp pay b k` is the balance before period `k+1` when every
period pays the constant `pay`. -/
def balSeq (rp pay b : ℚ) : ℕ → ℚ
  | 0 => b
  | k + 1 => simStep rp pay (balSeq rp pay b k)

/-- The ideal (exact, clamp-free) amortization balance after `k`
periods at per-period rate `rp` with constant payment `A`. -/
def idealBal (rp A p : ℚ) : ℕ → ℚ
  | 0 => p
  | k + 1 => idealBal rp A p k * (1 + rp) - A

/-- All slabs are bounded with caps forming a non-decreasing chain
starting at `pc` (the validity invariant of a slab table). -/
def capsChainB : ℚ → List Slab → Bool
  | _, [] => true
  | pc, s :: rest =>
    match s.upto with
    | none => false
    | some c => decide (pc ≤ c) && capsChainB c rest

/-- Every slab of the table is bounded by a cap strictly below `i`. -/
def allCapsBelowB (i : ℚ) : List Slab → Bool
  | [] => true
  | s :: rest =>
    match s.upto with
    | none => false
    | some c => decide (c < i) && allCapsBelowB i rest

/-! ### Basic facts about the rounding primitives -/

theorem le_pyRound (q : ℚ) : q - 1/2 ≤ (pyRound q : ℚ) := by
  have hfl : (⌊q⌋ : ℚ) ≤ q := Int.floor_le q
  have hfu : q < (⌊q⌋ : ℚ) + 1 := Int.lt_floor_add_one q
  unfold pyRound
  split_ifs with h1 h2 h3 <;> push_cast <;> linarith

theorem pyRound_le (q : ℚ) : (pyRound q : ℚ) ≤ q + 1/2 := by
  have hfl : (⌊q⌋ : ℚ) ≤ q := Int.floor_le q
  have hfu : q < (⌊q⌋ : ℚ) + 1 := Int.lt_floor_add_one q
  unfold pyRound
  split_ifs with h1 h2 h3 <;> push_cast <;> linarith

theorem pyRound_nonneg {q : ℚ} (h : 0 ≤ q) : 0 ≤ (pyRound q : ℚ) := by
  have hfl : (0 : ℤ) ≤ ⌊q⌋ := Int.floor_nonneg.mpr h
  have hfl' : (0 : ℚ) ≤ (⌊q⌋ : ℚ) := by exact_mod_cast hfl
  unfold pyRound
  split_ifs with h1 h2 h3 <;> push_cast <;> linarith

theorem le_round2 (q : ℚ) : q - 1/200 ≤ round2 q := by
  have h := le_pyRound (q * 100)
  unfold round2
  linarith

theorem round2_le (q : ℚ) : round2 q ≤ q + 1/200 := by
  have h := pyRound_le (q * 100)
  unfold round2
  linarith

theorem round2_nonneg {q : ℚ} (h : 0 ≤ q) : 0 ≤ round2 q := by
  have h' : (0:ℚ) ≤ q * 100 := by linarith
  have := pyRound_nonneg h'
  unfold round2
  linarith

theorem le_round10 (q : ℚ) : q - 1/(2 * 10^10) ≤ round10 q := by
  have h := le_pyRound (q * 10^10)
  unfold round10
  norm_num at h ⊢
  linarith

theorem round10_le (q : ℚ) : round10 q ≤ q + 1/(2 * 10^10) := by
  have h := pyRound_le (q * 10^10)
  unfold round10
  norm_num at h ⊢
  linarith

theorem round2_zero : round2 0 = 0 := by norm_num [round2, pyRound]

/-! ### Non-negativity of displayed remaining balances (for C4) -/

theorem amEntryOf_rb_nonneg (i : ℕ) (st : ℚ × ℚ × ℚ × ℚ) :
    0 ≤ (amEntryOf i st).remaining_balance := by
  unfold amEntryOf
  dsimp only
  apply round2_nonneg
  split_ifs with h
  · exact le_of_lt h
  · exact le_refl 0

theorem amLoop_remaining_nonneg (r rp : ℚ) :
    ∀ (fuel i : ℕ) (pay bal : ℚ),
      ∀ e ∈ (amLoop r rp fuel i pay bal).2.2.2, 0 ≤ e.remaining_balance := by
  intro fuel
  induction fuel with
  | zero => intro i pay bal e he; simp [amLoop] at he
  | succ fuel ih =>
    intro i pay bal e he
    rw [amLoop] at he
    dsimp only at he
    split at he
    · simp only [List.mem_singleton] at he
      subst he
      exact amEntryOf_rb_nonneg _ _
    · simp only [List.mem_cons] at he
      rcases he with rfl | he
      · exact amEntryOf_rb_nonneg _ _
      · exact ih _ _ _ e he

/-! ### C2: the documented tax example -/

/-- C2: `compute_progressive_tax` on `taxable_income = 600000` with the
default slab table yields `tax_due = 32500` and exactly three breakdown
bands: 0-250000 taxed 0, 250000-500000 taxed 12500, and the slice
500000-600000 of the third slab taxed 20000; the loop short-circuits,
so the unbounded fourth slab produces no breakdown entry. -/
theorem tax_example_600000 :
    compute_progressive_tax 600000 defaultSlabs =
      { tax_due := 32500,
        breakdown :=
          [ { band_from := some 0, band_to := some 250000,
              taxable := 250000, rate := 0, tax := 0 },
            { band_from := some 250000, band_to := some 500000,
              taxable := 250000, rate := 5/100, tax := 12500 },
            { band_from := some 500000, band_to := some 1000000,
              taxable := 100000, rate := 20/100, tax := 20000 } ] } := by
  norm_num [compute_progressive_tax, taxLoop, taxBandOf, taxEntryOf,
    defaultSlabs, round2, pyRound]

/-! ### C9: division by zero when the rounded period count is 0 -/

/-- C9: valid inputs (`principal = 1000 > 0`, `annual_rate_pct = 5 > 0`,
`years = 0.04 > 0`, `payments_per_year = 12 ≥ 1`) make
`round(years * payments_per_year) = round(0.48) = 0`, so the annuity
denominator `1 - (1+rp)^0` is `0` and the computation fails with a
division by zero (`none`); the `n > 0` guard protects only the
zero-rate branch, where the same input returns a result. -/
theorem amortization_zero_periods_crash :
    amortization_schedule 1000 5 (1/25) 12 = none ∧
    pyRound ((1/25) * 12) = 0 ∧
    amortization_schedule 1000 0 (1/25) 12 =
      some { periods := 0, payment := 1000, total_interest := 0, schedule := [] } := by
  refine ⟨?_, ?_, ?_⟩ <;>
    norm_num [amortization_schedule, annuityPayment, amLoop, round2, pyRound]

/-! ### C3: tax_due versus the sum of the rounded breakdown taxes -/

/-- Counterexample for C3: with slabs `[{upto 1, rate 0.004}, {unbounded,
rate 0.004}]` and income 2, each band tax `0.004` rounds to `0.00` in
the breakdown while `tax_due = round(0.008, 2) = 0.01`, so `tax_due`
differs from the sum of the breakdown `tax` fields. -/
theorem tax_due_ne_breakdown_sum_cex :
    (compute_progressive_tax 2 [⟨some 1, 1/250⟩, ⟨none, 1/250⟩]).tax_due = 1/100 ∧
    ((compute_progressive_tax 2 [⟨some 1, 1/250⟩, ⟨none, 1/250⟩]).breakdown.map
      TaxBand.tax).sum = 0 ∧
    (1/100 : ℚ) ≠ 0 := by
  refine ⟨?_, ?_, by norm_num⟩ <;>
    norm_num [compute_progressive_tax, taxLoop, taxBandOf, taxEntryOf, round2, pyRound]

theorem abs_round2_sub (q : ℚ) : |round2 q - q| ≤ 1/200 := by
  have h1 := le_round2 q
  have h2 := round2_le q
  rw [abs_le]
  constructor <;> linarith

theorem taxBandOf_nonneg (pc upto : Option ℚ) (rem : ℚ) :
    0 ≤ taxBandOf pc upto rem := by
  unfold taxBandOf
  rcases pc with _ | pc
  · exact le_refl 0
  · rcases upto with _ | c <;> exact le_max_left 0 _

theorem taxLoop_tax_nonneg :
    ∀ (slabs : List Slab) (rem : ℚ) (pc : Option ℚ),
      (∀ s ∈ slabs, 0 ≤ s.rate) → 0 ≤ (taxLoop slabs rem pc).1 := by
  intro slabs
  induction slabs with
  | nil => intro rem pc _; simp [taxLoop]
  | cons s rest ih =>
    intro rem pc hr
    have hs : 0 ≤ s.rate := hr s (List.mem_cons_self s rest)
    have hband := taxBandOf_nonneg pc s.upto rem
    have hbt : 0 ≤ taxBandOf pc s.upto rem * s.rate := mul_nonneg hband hs
    rw [taxLoop]
    dsimp only
    split
    · exact hbt
    · have := ih (rem - taxBandOf pc s.upto rem) s.upto
        (fun t ht => hr t (List.mem_cons_of_mem s ht))
      positivity

theorem taxLoop_tax_close_to_sum :
    ∀ (slabs : List Slab) (rem : ℚ) (pc : Option ℚ),
      |(taxLoop slabs rem pc).1 -
        ((taxLoop slabs rem pc).2.map TaxBand.tax).sum| ≤
      ((taxLoop slabs rem pc).2.length : ℚ) / 200 := by
  intro slabs
  induction slabs with
  | nil => intro rem pc; simp [taxLoop]
  | cons s rest ih =>
    intro rem pc
    rw [taxLoop]
    dsimp only
    have hentry :
        |taxBandOf pc s.upto rem * s.rate -
          (taxEntryOf s pc (taxBandOf pc s.upto rem)).tax| ≤ 1/200 := by
      unfold taxEntryOf
      dsimp only
      rw [abs_sub_comm]
      exact abs_round2_sub _
    split
    · simpa using hentry
    · have hrec := ih (rem - taxBandOf pc s.upto rem) s.upto
      simp only [List.map_cons, List.sum_cons, List.length_cons]
      push_cast
      have htri :
          |taxBandOf pc s.upto rem * s.rate +
              (taxLoop rest (rem - taxBandOf pc s.upto rem) s.upto).1 -
            ((taxEntryOf s pc (taxBandOf pc s.upto rem)).tax +
              ((taxLoop rest (rem - taxBandOf pc s.upto rem) s.upto).2.map
                TaxBand.tax).sum)| ≤
          |taxBandOf pc s.upto rem * s.rate -
            (taxEntryOf s pc (taxBandOf pc s.upto rem)).tax| +
          |(taxLoop rest (rem - taxBandOf pc s.upto rem) s.upto).1 -
            ((taxLoop rest (rem - taxBandOf pc s.upto rem) s.upto).2.map
              TaxBand.tax).sum| := by
        have := abs_add
          (taxBandOf pc s.upto rem * s.rate -
            (taxEntryOf s pc (taxBandOf pc s.upto rem)).tax)
          ((taxLoop rest (rem - taxBandOf pc s.upto rem) s.upto).1 -
            ((taxLoop rest (rem - taxBandOf pc s.upto rem) s.upto).2.map
              TaxBand.tax).sum)
        have heq :
            taxBandOf pc s.upto rem * s.rate +
              (taxLoop rest (rem - taxBandOf pc s.upto rem) s.upto).1 -
            ((taxEntryOf s pc (taxBandOf pc s.upto rem)).tax +
              ((taxLoop rest (rem - taxBandOf pc s.upto rem) s.upto).2.map
                TaxBand.tax).sum) =
            (taxBandOf pc s.upto rem * s.rate -
              (taxEntryOf s pc (taxBandOf pc s.upto rem)).tax) +
            ((taxLoop rest (rem - taxBandOf pc s.upto rem) s.upto).1 -
              ((taxLoop rest (rem - taxBandOf pc s.upto rem) s.upto).2.map
                TaxBand.tax).sum) := by ring
        rw [heq]
        exact this
      have hlen :
          (((taxLoop rest (rem - taxBandOf pc s.upto rem) s.upto).2.length : ℚ) + 1) / 200 =
          1/200 + ((taxLoop rest (rem - taxBandOf pc s.upto rem) s.upto).2.length : ℚ) / 200 := by
        ring
      calc |taxBandOf pc s.upto rem * s.rate +
              (taxLoop rest (rem - taxBandOf pc s.upto rem) s.upto).1 -
            ((taxEntryOf s pc (taxBandOf pc s.upto rem)).tax +
              ((taxLoop rest (rem - taxBandOf pc s.upto rem) s.upto).2.map
                TaxBand.tax).sum)| ≤ _ := htri
        _ ≤ 1/200 + ((taxLoop rest (rem - taxBandOf pc s.upto rem) s.upto).2.length : ℚ) / 200 := by
            have := hentry
            linarith
        _ = (((taxLoop rest (rem - taxBandOf pc s.upto rem) s.upto).2.length : ℚ) + 1) / 200 := by
            rw [hlen]

/-- C3 (amended): for every slab table with rates in `[0,1]` and every
`taxable_income ≥ 0`, `tax_due ≥ 0`; `tax_due` is the rounding of the
accumulated un-rounded tax while each breakdown `tax` is rounded
individually, so the two agree only up to rounding: `tax_due` differs
from the sum of the breakdown `tax` fields by at most
`(breakdown length + 1) * 0.005` (exact equality fails in general). -/
theorem tax_due_nonneg_and_close_to_breakdown_sum
    (slabs : List Slab) (income : ℚ) (hinc : 0 ≤ income)
    (hr : ∀ s ∈ slabs, 0 ≤ s.rate ∧ s.rate ≤ 1) :
    0 ≤ (compute_progressive_tax income slabs).tax_due ∧
    |(compute_progressive_tax income slabs).tax_due -
      ((compute_progressive_tax income slabs).breakdown.map TaxBand.tax).sum| ≤
      (((compute_progressive_tax income slabs).breakdown.length : ℚ) + 1) / 200 := by
  unfold compute_progressive_tax
  dsimp only
  constructor
  · exact round2_nonneg
      (taxLoop_tax_nonneg slabs income (some 0) (fun s hs => (hr s hs).1))
  · have h1 := abs_round2_sub (taxLoop slabs income (some 0)).1
    have h2 := taxLoop_tax_close_to_sum slabs income (some 0)
    have h3 := abs_sub_le (round2 (taxLoop slabs income (some 0)).1)
      (taxLoop slabs income (some 0)).1
      (((taxLoop slabs income (some 0)).2.map TaxBand.tax).sum)
    linarith

/-- Witness for C3 (amended), at the documented example input. -/
theorem tax_due_nonneg_and_close_to_breakdown_sum_witness :
    0 ≤ (compute_progressive_tax 600000 defaultSlabs).tax_due ∧
    |(compute_progressive_tax 600000 defaultSlabs).tax_due -
      ((compute_progressive_tax 600000 defaultSlabs).breakdown.map TaxBand.tax).sum| ≤
      (((compute_progressive_tax 600000 defaultSlabs).breakdown.length : ℚ) + 1) / 200 :=
  tax_due_nonneg_and_close_to_breakdown_sum defaultSlabs 600000 (by norm_num)
    (by intro s hs
        rw [defaultSlabs] at hs
        fin_cases hs <;> norm_num)

/-! ### C10: empty tables and income beyond every cap -/

theorem taxLoop_beyond_caps :
    ∀ (slabs : List Slab) (pc i1 i2 : ℚ),
      capsChainB pc slabs = true →
      allCapsBelowB i1 slabs = true → allCapsBelowB i2 slabs = true →
      taxLoop slabs (i1 - pc) (some pc) = taxLoop slabs (i2 - pc) (some pc) := by
  intro slabs
  induction slabs with
  | nil => intro pc i1 i2 _ _ _; rfl
  | cons s rest ih =>
    intro pc i1 i2 hchain h1 h2
    rcases s with ⟨upto, rate⟩
    rcases upto with _ | c
    · simp [capsChainB] at hchain
    · rw [capsChainB] at hchain
      rw [allCapsBelowB] at h1 h2
      simp only [Bool.and_eq_true, decide_eq_true_eq] at hchain h1 h2
      obtain ⟨hpc, hchain'⟩ := hchain
      obtain ⟨hc1, h1'⟩ := h1
      obtain ⟨hc2, h2'⟩ := h2
      have hband1 : taxBandOf (some pc) (some c) (i1 - pc) = c - pc := by
        simp only [taxBandOf]
        rw [min_eq_left (by linarith), max_eq_right (by linarith)]
      have hband2 : taxBandOf (some pc) (some c) (i2 - pc) = c - pc := by
        simp only [taxBandOf]
        rw [min_eq_left (by linarith), max_eq_right (by linarith)]
      rw [taxLoop, taxLoop]
      dsimp only
      rw [hband1, hband2]
      rw [if_neg (by intro h; nlinarith), if_neg (by intro h; nlinarith)]
      have e1 : i1 - pc - (c - pc) = i1 - c := by ring
      have e2 : i2 - pc - (c - pc) = i2 - c := by ring
      rw [e1, e2, ih c i1 i2 hchain' h1' h2']

/-- C10: `compute_progressive_tax` applied to an empty slab table
returns `tax_due = 0` with an empty breakdown for every income (the
engine is total: it never fails on an empty or exhausted table), and
for a valid all-bounded table (caps non-decreasing, no unbounded final
slab) the result is the same for any two incomes strictly above every
cap — income beyond the last bounded cap is untaxed. -/
theorem empty_and_exhausted_slabs :
    (∀ income : ℚ,
      compute_progressive_tax income [] = { tax_due := 0, breakdown := [] }) ∧
    (∀ (slabs : List Slab) (i1 i2 : ℚ),
      capsChainB 0 slabs = true →
      allCapsBelowB i1 slabs = true → allCapsBelowB i2 slabs = true →
      compute_progressive_tax i1 slabs = compute_progressive_tax i2 slabs) := by
  constructor
  · intro income
    unfold compute_progressive_tax taxLoop
    dsimp only
    rw [round2_zero]
  · intro slabs i1 i2 hc h1 h2
    unfold compute_progressive_tax
    have h := taxLoop_beyond_caps slabs 0 i1 i2 hc h1 h2
    rw [sub_zero, sub_zero] at h
    rw [h]

/-- Witness for C10: an empty table at income 17, and the all-bounded
table `[{upto 10, rate 0.1}]` at incomes 20 and 30 beyond the cap. -/
theorem empty_and_exhausted_slabs_witness :
    compute_progressive_tax 17 [] = { tax_due := 0, breakdown := [] } ∧
    compute_progressive_tax 20 [⟨some 10, 1/10⟩] =
      compute_progressive_tax 30 [⟨some 10, 1/10⟩] :=
  ⟨empty_and_exhausted_slabs.1 17,
   empty_and_exhausted_slabs.2 [⟨some 10, 1/10⟩] 20 30
     (by norm_num [capsChainB]) (by norm_num [allCapsBelowB])
     (by norm_num [allCapsBelowB])⟩

/-! ### C4: the schedule balance invariant fails for extreme rates -/

/-- Counterexample for C4: at `principal = 9e-11`, `annual_rate_pct =
2e12`, `years = 2`, `payments_per_year = 1` (all satisfying the stated
preconditions) the displayed remaining balances are `[0, 0.2]`: they
increase from one period to the next, and the final entry's
`remaining_balance` is `0.2 ≠ 0` although the schedule runs all
`periods = 2` periods (it is not truncated at a zero balance). -/
theorem schedule_balance_invariant_cex :
    (amortization_schedule (9/10^11) (2*10^12) 2 1).map
      (fun res => (res.periods, res.schedule.map AmEntry.remaining_balance)) =
      some (2, [0, 1/5]) ∧
    ¬ List.Chain' (fun a b : ℚ => b ≤ a) [0, 1/5] ∧
    (1/5 : ℚ) ≠ 0 := by
  refine ⟨?_, by norm_num [List.chain'_cons], by norm_num⟩
  norm_num [amortization_schedule, annuityPayment, amLoop, amStep, amEntryOf,
    round2, round10, pyRound]

/-! ### C5: the principal round-trip fails for small principals -/

/-- Counterexample for C5: at `principal = 0.014997`, rate 0, `years =
3`, `payments_per_year = 1` every displayed `principal_paid` is
`round(0.004999, 2) = 0.0`, so their sum `0` misses the principal by
more than the stated `0.01` tolerance. -/
theorem principal_roundtrip_cex :
    (amortization_schedule (14997/10^6) 0 3 1).map
      (fun res => (res.schedule.map AmEntry.principal_paid).sum) = some 0 ∧
    ¬ |(0 : ℚ) - 14997/10^6| ≤ 1/100 := by
  refine ⟨?_, by rw [zero_sub, abs_neg, abs_of_nonneg] <;> norm_num⟩
  norm_num [amortization_schedule, annuityPayment, amLoop, amStep, amEntryOf,
    round2, round10, pyRound]

/-! ### C6: the returned payment is the rounded, not exact, `p/n` -/

/-- Counterexample for C6: at `principal = 1`, rate 0, `years = 3`,
`payments_per_year = 1` the returned `payment` field is
`round(1/3, 2) = 0.33`, not `principal / n = 1/3` exactly. -/
theorem zero_rate_payment_cex :
    (amortization_schedule 1 0 3 1).map AmResult.payment = some (33/100) ∧
    (amortization_schedule 1 0 3 1).map AmResult.periods = some 3 ∧
    (33/100 : ℚ) ≠ 1/3 := by
  refine ⟨?_, ?_, by norm_num⟩ <;>
    norm_num [amortization_schedule, annuityPayment, amLoop, amStep, amEntryOf,
      round2, round10, pyRound]

theorem amortization_schedule_some {p apr y : ℚ} {ppy : ℕ} {res : AmResult}
    (h : amortization_schedule p apr y ppy = some res) :
    ∃ pay,
      annuityPayment p (apr/100) (apr/100/(ppy:ℚ)) (pyRound (y * (ppy:ℚ))) = some pay ∧
      res = { periods := pyRound (y * (ppy:ℚ)),
              payment := round2 (amLoop (apr/100) (apr/100/(ppy:ℚ))
                (pyRound (y * (ppy:ℚ))).toNat 1 pay p).1,
              total_interest := round2 (amLoop (apr/100) (apr/100/(ppy:ℚ))
                (pyRound (y * (ppy:ℚ))).toNat 1 pay p).2.2.1,
              schedule := (amLoop (apr/100) (apr/100/(ppy:ℚ))
                (pyRound (y * (ppy:ℚ))).toNat 1 pay p).2.2.2 } := by
  revert h
  unfold amortization_schedule
  dsimp only
  rcases annuityPayment p (apr/100) (apr/100/(ppy:ℚ)) (pyRound (y * (ppy:ℚ))) with _ | pay
  · intro h
    exact absurd h (by simp)
  · intro h
    exact ⟨pay, rfl, (Option.some.inj h).symm⟩

/-! ### C1: characterization of the comparator's insufficiency error -/

theorem simLoop_stopped (rp : ℚ) (fuel per : ℕ) (pay b : ℚ) (hb : ¬ b > 1/10000) :
    simLoop rp fuel per pay b = .ok (pay, per, 0, []) := by
  cases fuel with
  | zero => rfl
  | succ fuel => rw [simLoop, if_neg hb]

theorem balSeq_shift (rp pay b : ℚ) :
    ∀ k, balSeq rp pay b (k + 1) = balSeq rp pay (simStep rp pay b) k := by
  intro k
  induction k with
  | zero => rfl
  | succ k ih => rw [balSeq, ih, balSeq]

theorem cmpStep_interest (rp pay bal : ℚ) : (cmpStep rp pay bal).1 = bal * rp := rfl

theorem cmpStep_clamp_balance (rp pay bal : ℚ) (h : pay - bal * rp > bal) :
    (cmpStep rp pay bal).2.2.2 = 0 := by
  unfold cmpStep
  dsimp only
  rw [if_pos h, sub_self]

theorem cmpStep_noclamp_balance (rp pay bal : ℚ) (h : ¬ pay - bal * rp > bal) :
    (cmpStep rp pay bal).2.2.2 = simStep rp pay bal := by
  unfold cmpStep simStep
  dsimp only
  rw [if_neg h]

theorem cmpStep_noclamp_pay (rp pay bal : ℚ) (h : ¬ pay - bal * rp > bal) :
    (cmpStep rp pay bal).2.2.1 = pay := by
  unfold cmpStep
  dsimp only
  rw [if_neg h]

theorem simLoop_error_iff (rp pay : ℚ) :
    ∀ (fuel per : ℕ) (b : ℚ),
      simLoop rp fuel per pay b = .error () ↔
      ∃ k, k < fuel ∧ (∀ j ≤ k, balSeq rp pay b j > 1/10000) ∧
        pay - balSeq rp pay b k * rp ≤ 0 := by
  intro fuel
  induction fuel with
  | zero =>
    intro per b
    constructor
    · intro h; exact absurd h (by simp [simLoop])
    · rintro ⟨k, hk, -⟩; exact absurd hk (Nat.not_lt_zero k)
  | succ fuel ih =>
    intro per b
    rw [simLoop]
    by_cases hb : b > 1/10000
    · rw [if_pos hb]
      by_cases herr : pay - b * rp ≤ 0
      · rw [if_pos herr]
        constructor
        · intro _
          refine ⟨0, Nat.succ_pos fuel, ?_, herr⟩
          intro j hj
          rw [Nat.le_zero] at hj
          subst hj
          exact hb
        · intro _; rfl
      · rw [if_neg herr]
        dsimp only
        by_cases hcl : pay - b * rp > b
        · -- clamp: the next balance is 0, so the loop returns ok
          rw [cmpStep_clamp_balance rp pay b hcl,
              simLoop_stopped rp fuel (per+1) _ 0 (by norm_num)]
          constructor
          · intro h; exact absurd h (by simp)
          · rintro ⟨k, -, hpos, hk⟩
            rcases k with _ | k
            · exact absurd hk herr
            · have h1 := hpos 1 (Nat.succ_le_succ (Nat.zero_le k))
              rw [balSeq] at h1
              unfold simStep balSeq at h1
              -- balSeq 1 = b - (pay - b*rp) < 0 since pay - b*rp > b
              linarith
        · rw [cmpStep_noclamp_balance rp pay b hcl, cmpStep_noclamp_pay rp pay b hcl]
          rcases hrec : simLoop rp fuel (per + 1) pay (simStep rp pay b) with e | res
          · -- recursive call errors: lift its witness period by one
            cases e
            apply iff_of_true rfl
            obtain ⟨k, hk, hpos, hfin⟩ := (ih (per+1) (simStep rp pay b)).1 hrec
            refine ⟨k + 1, Nat.succ_lt_succ hk, ?_, ?_⟩
            · intro j hj
              rcases j with _ | j
              · exact hb
              · rw [balSeq_shift]
                exact hpos j (Nat.le_of_succ_le_succ hj)
            · rw [balSeq_shift]
              exact hfin
          · -- recursive call succeeds: no error, and no witness exists
            apply iff_of_false (by simp)
            rintro ⟨k, hk, hpos, hfin⟩
            rcases k with _ | k
            · exact herr hfin
            · have : simLoop rp fuel (per + 1) pay (simStep rp pay b) = .error () :=
                (ih (per+1) (simStep rp pay b)).2
                  ⟨k, Nat.lt_of_succ_lt_succ hk, ?_, ?_⟩
              · rw [this] at hrec
                exact absurd hrec (by simp)
              · intro j hj
                rw [← balSeq_shift]
                exact hpos (j+1) (Nat.succ_le_succ hj)
              · rw [← balSeq_shift]
                exact hfin
    · rw [if_neg hb]
      constructor
      · intro h; exact absurd h (by simp)
      · rintro ⟨k, -, hpos, -⟩
        exact absurd (hpos 0 (Nat.zero_le k)) hb

/-- C1: for every prepay/invest comparison within the stated
preconditions (with `base` the baseline amortization result), the
operation fails with the insufficient-payment client error — and
returns nothing else — exactly when some simulated period (a period `k`
reached with all previous clamp-free balances above the `0.0001`
stopping threshold, before the safety cap) has
`payment - interest ≤ 0` for the constant payment
`base.payment + scaled extra`; it never runs silently to the safety cap
in that situation. -/
theorem insufficient_payment_error_iff
    (p apr : ℚ) (years ppy : ℕ) (extra invest : ℚ) (base : AmResult)
    (hp : 0 < p) (hapr : 0 ≤ apr) (hy : 1 ≤ years) (hppy : 1 ≤ ppy)
    (hextra : 0 ≤ extra) (hinv : 0 ≤ invest)
    (hbase : amortization_schedule p apr (years : ℚ) ppy = some base) :
    (prepay_vs_invest p apr years extra ppy invest = some (.error ()) ↔
      ∃ k, k < years * ppy * 5 ∧
        (∀ j ≤ k,
          balSeq (apr/100/(ppy:ℚ)) (base.payment + extra * ((ppy:ℚ)/12)) p j > 1/10000) ∧
        base.payment + extra * ((ppy:ℚ)/12) -
          balSeq (apr/100/(ppy:ℚ)) (base.payment + extra * ((ppy:ℚ)/12)) p k *
            (apr/100/(ppy:ℚ)) ≤ 0) := by
  unfold prepay_vs_invest
  rw [hbase]
  dsimp only
  rcases hsim : simLoop (apr/100/(ppy:ℚ)) (years * ppy * 5) 0
      (base.payment + extra * ((ppy:ℚ)/12)) p with e | quad
  · cases e
    exact iff_of_true rfl
      ((simLoop_error_iff (apr/100/(ppy:ℚ)) (base.payment + extra * ((ppy:ℚ)/12))
        (years * ppy * 5) 0 p).1 hsim)
  · apply iff_of_false (by simp)
    intro hex
    have herr := (simLoop_error_iff (apr/100/(ppy:ℚ))
      (base.payment + extra * ((ppy:ℚ)/12)) (years * ppy * 5) 0 p).2 hex
    rw [herr] at hsim
    exact absurd hsim (by simp)

/-- Witness for C1: with `principal = 1`, `annual_rate_pct = 2e12`,
`years = 2`, no extra, the rounded base payment exactly equals the
first period's interest, so the comparator reports the client error. -/
theorem insufficient_payment_error_iff_witness :
    prepay_vs_invest 1 (2*10^12) 2 0 1 0 = some (.error ()) := by
  have hbase : amortization_schedule 1 (2*10^12) ((2:ℕ) : ℚ) 1 =
      some { periods := 2, payment := 20000000000, total_interest := 40000000000,
             schedule := [⟨1, 20000000000, 0, 20000000000, 1⟩,
                          ⟨2, 20000000000, 0, 20000000000, 1⟩] } := by
    norm_num [amortization_schedule, annuityPayment, amLoop, amStep, amEntryOf,
      round2, round10, pyRound]
  refine (insufficient_payment_error_iff 1 (2*10^12) 2 1 0 0
    { periods := 2, payment := 20000000000, total_interest := 40000000000,
      schedule := [⟨1, 20000000000, 0, 20000000000, 1⟩,
                   ⟨2, 20000000000, 0, 20000000000, 1⟩] }
    (by norm_num) (by norm_num) (by norm_num) (by norm_num) (by norm_num) (by norm_num)
    hbase).mpr ⟨0, by norm_num, ?_, ?_⟩
  · intro j hj
    rw [Nat.le_zero] at hj
    subst hj
    norm_num [balSeq]
  · norm_num [balSeq]

/-! ### C7/C8: coupling the comparator loop to the ideal annuity -/

theorem pyRound_natCast (m : ℕ) : pyRound ((m : ℕ) : ℚ) = m := by
  unfold pyRound
  rw [Int.floor_natCast]
  norm_num

theorem idealBal_succ (rp A p : ℚ) (k : ℕ) :
    idealBal rp A p (k + 1) = idealBal rp A p k * (1 + rp) - A := rfl

theorem idealBal_zero_rate (A p : ℚ) : ∀ k : ℕ, idealBal 0 A p k = p - k * A := by
  intro k
  induction k with
  | zero => simp [idealBal]
  | succ k ih => rw [idealBal_succ, ih]; push_cast; ring

theorem idealBal_closed (rp A p : ℚ) (hrp : rp ≠ 0) :
    ∀ k : ℕ, idealBal rp A p k = p * (1+rp)^k - A * ((1+rp)^k - 1)/rp := by
  intro k
  induction k with
  | zero => simp [idealBal]
  | succ k ih =>
    rw [idealBal_succ, ih, pow_succ]
    field_simp
    ring

theorem idealBal_bounds (rp A p : ℚ) (hrp : 0 ≤ rp) (hA : 0 ≤ A) (m : ℕ)
    (hm : idealBal rp A p m = 0) :
    ∀ d j, j + d = m → 0 ≤ idealBal rp A p j ∧ idealBal rp A p j ≤ (d : ℚ) * A := by
  intro d
  induction d with
  | zero =>
    intro j hj
    rw [Nat.add_zero] at hj
    subst hj
    rw [hm]
    norm_num
  | succ d ih =>
    intro j hj
    obtain ⟨h0, h1⟩ := ih (j+1) (by omega)
    have h1rp : (0:ℚ) < 1 + rp := by linarith
    have key : idealBal rp A p j * (1+rp) = idealBal rp A p (j+1) + A := by
      rw [idealBal_succ]; ring
    have hjnn : 0 ≤ idealBal rp A p j := by
      by_contra hneg
      push_neg at hneg
      have : idealBal rp A p j * (1+rp) < 0 := mul_neg_of_neg_of_pos hneg h1rp
      linarith
    refine ⟨hjnn, ?_⟩
    have h2 : idealBal rp A p j * (1+rp) ≤ ((d:ℚ)+1) * A := by
      rw [key]; linarith
    have h3 : idealBal rp A p j ≤ idealBal rp A p j * (1+rp) := by
      nlinarith [mul_nonneg hjnn hrp]
    push_cast
    linarith

theorem annuityPayment_ideal_zero
    (p r rp A : ℚ) (m : ℕ) (hm : 0 < m) (hrp : 0 ≤ rp)
    (hlink0 : r = 0 → rp = 0) (hlink1 : rp = 0 → r = 0)
    (hA : annuityPayment p r rp (m : ℤ) = some A) :
    idealBal rp A p m = 0 := by
  unfold annuityPayment at hA
  by_cases hr : r = 0
  · rw [if_pos hr, if_pos (by exact_mod_cast hm : (0:ℤ) < (m:ℤ))] at hA
    have hAeq : A = p / (m : ℚ) := by
      have h := (Option.some.inj hA).symm
      rw [h]
      norm_num
    have hrp0 : rp = 0 := hlink0 hr
    rw [hrp0, idealBal_zero_rate, hAeq]
    have hmne : (m : ℚ) ≠ 0 := Nat.cast_ne_zero.mpr (by omega)
    field_simp
  · rw [if_neg hr] at hA
    split_ifs at hA with h1 h2
    · have hAeq : A = p * rp / (1 - (1+rp)^(-(m:ℤ))) := (Option.some.inj hA).symm
      have hrpne : rp ≠ 0 := fun h => hr (hlink1 h)
      have h1rp : (1:ℚ) + rp ≠ 0 := by intro hc; linarith
      have hupow : ((1:ℚ)+rp)^(-(m:ℤ)) = (((1:ℚ)+rp)^m)⁻¹ := by
        rw [zpow_neg, zpow_natCast]
      have hne2 : ((1:ℚ)+rp)^m ≠ 0 := pow_ne_zero m h1rp
      have hd : 1 - (((1:ℚ)+rp)^m)⁻¹ ≠ 0 := by rw [← hupow]; exact h2
      have hne3 : ((1:ℚ)+rp)^m - 1 ≠ 0 := by
        intro hc
        apply hd
        have hone : ((1:ℚ)+rp)^m = 1 := by linarith
        rw [hone]
        norm_num
      rw [idealBal_closed rp A p hrpne m, hAeq, hupow]
      field_simp
      ring

theorem annuityPayment_pos
    (p r rp A : ℚ) (m : ℕ) (hm : 0 < m) (hp : 0 < p) (hrp : 0 ≤ rp)
    (hlink1 : rp = 0 → r = 0)
    (hA : annuityPayment p r rp (m : ℤ) = some A) : 0 < A := by
  unfold annuityPayment at hA
  by_cases hr : r = 0
  · rw [if_pos hr, if_pos (by exact_mod_cast hm : (0:ℤ) < (m:ℤ))] at hA
    have hAeq : A = p / ((m:ℤ) : ℚ) := (Option.some.inj hA).symm
    rw [hAeq]
    apply div_pos hp
    exact_mod_cast hm
  · rw [if_neg hr] at hA
    split_ifs at hA with h1 h2
    · have hAeq : A = p * rp / (1 - (1+rp)^(-(m:ℤ))) := (Option.some.inj hA).symm
      have hrppos : 0 < rp := by
        rcases lt_or_eq_of_le hrp with h | h
        · exact h
        · exact absurd (hlink1 h.symm) hr
      have hu : (1:ℚ) < 1 + rp := by linarith
      have hden : 0 < 1 - (1+rp)^(-(m:ℤ)) := by
        rw [zpow_neg, zpow_natCast]
        have hpow : 1 < (1+rp)^m := one_lt_pow hu (by omega)
        have hinv : ((1+rp)^m)⁻¹ < 1 := inv_lt_one hpow
        linarith
      rw [hAeq]
      exact div_pos (mul_pos hp hrppos) hden

theorem simLoop_ideal_invariant (rp A pay : ℚ) (hrp : 0 ≤ rp) (hA : 0 ≤ A)
    (hpay : A ≤ pay) (p : ℚ) (m : ℕ)
    (hm : ∀ j, j ≤ m → 0 ≤ idealBal rp A p j)
    (hend : idealBal rp A p m ≤ 1/10000) :
    ∀ (fuel per : ℕ) (bal pf : ℚ) (T : ℕ) (ti : ℚ) (sch : List AmEntry),
      bal ≤ idealBal rp A p per → per ≤ m → m ≤ fuel + per →
      simLoop rp fuel per pay bal = .ok (pf, T, ti, sch) →
      per ≤ T ∧ T ≤ m ∧
        ti + idealBal rp A p per + (per : ℚ) * A ≤ idealBal rp A p T + (T : ℚ) * A := by
  intro fuel
  induction fuel with
  | zero =>
    intro per bal pf T ti sch hbal hperm _hmf hok
    rw [simLoop] at hok
    simp only [Except.ok.injEq, Prod.mk.injEq] at hok
    obtain ⟨-, rfl, rfl, -⟩ := hok
    exact ⟨le_refl per, hperm, by linarith⟩
  | succ fuel ih =>
    intro per bal pf T ti sch hbal hperm hmf hok
    rw [simLoop] at hok
    by_cases hb : bal > 1/10000
    · rw [if_pos hb] at hok
      have hperlt : per < m := by
        rcases Nat.lt_or_ge per m with h | h
        · exact h
        · exfalso
          have hpm : per = m := le_antisymm hperm h
          subst hpm
          linarith
      by_cases herr : pay - bal * rp ≤ 0
      · rw [if_pos herr] at hok
        exact absurd hok (by simp)
      · rw [if_neg herr] at hok
        dsimp only at hok
        have hib := hm per (le_of_lt hperlt)
        have hmul : bal * rp ≤ idealBal rp A p per * rp :=
          mul_le_mul_of_nonneg_right hbal hrp
        by_cases hcl : pay - bal * rp > bal
        · rw [cmpStep_clamp_balance rp pay bal hcl,
              simLoop_stopped rp fuel (per+1) _ 0 (by norm_num)] at hok
          dsimp only at hok
          simp only [Except.ok.injEq, Prod.mk.injEq] at hok
          obtain ⟨-, rfl, rfl, -⟩ := hok
          refine ⟨Nat.le_succ per, Nat.succ_le_of_lt hperlt, ?_⟩
          rw [cmpStep_interest, idealBal_succ]
          push_cast
          linarith
        · rw [cmpStep_noclamp_balance rp pay bal hcl,
              cmpStep_noclamp_pay rp pay bal hcl] at hok
          rcases hrec : simLoop rp fuel (per+1) pay (simStep rp pay bal) with e | res
          · rw [hrec] at hok
            exact absurd hok (by simp)
          · rcases res with ⟨rpf, rT, rti, rsch⟩
            rw [hrec] at hok
            dsimp only at hok
            simp only [Except.ok.injEq, Prod.mk.injEq] at hok
            obtain ⟨-, rfl, rfl, -⟩ := hok
            have hbal' : simStep rp pay bal ≤ idealBal rp A p (per+1) := by
              rw [idealBal_succ]
              unfold simStep
              nlinarith [hmul]
            obtain ⟨ht1, ht2, ht3⟩ := ih (per+1) (simStep rp pay bal) rpf rT rti rsch
              hbal' (Nat.succ_le_of_lt hperlt) (by omega) hrec
            refine ⟨le_trans (Nat.le_succ per) ht1, ht2, ?_⟩
            rw [cmpStep_interest]
            have hibs := idealBal_succ rp A p per
            push_cast at ht3 ⊢
            linarith
    · rw [if_neg hb] at hok
      simp only [Except.ok.injEq, Prod.mk.injEq] at hok
      obtain ⟨-, rfl, rfl, -⟩ := hok
      exact ⟨le_refl per, hperm, by linarith⟩

set_option maxRecDepth 8000 in
set_option maxHeartbeats 2000000 in
/-- Counterexample for C7: at `principal = 102.23`, `annual_rate_pct =
120`, `years = 1`, `payments_per_year = 12`, `extra_monthly = 0.0001 >
0`, the comparator completes without error, yet `interest_saved =
-0.04 < 0`: the comparator adds the tiny extra to the 2-decimal-rounded
base payment (15.00, below the exact annuity payment ≈ 15.0036), so it
underpays every period and accrues more interest than the baseline. -/
theorem interest_saved_negative_cex :
    ((prepay_vs_invest (10223/100) 120 1 (1/10000) 12 0).map fun e =>
      e.map fun res => res.interest_saved) = some (.ok (-1/25)) ∧
    ¬ (0:ℚ) ≤ -1/25 := by
  constructor
  · norm_num [prepay_vs_invest, amortization_schedule, annuityPayment, amLoop,
      amStep, amEntryOf, simLoop, cmpStep, cmpEntryOf, round2, round10, round1, pyRound,
      Except.map]
  · norm_num

set_option maxRecDepth 8000 in
set_option maxHeartbeats 2000000 in
/-- Counterexample for C8: at `principal = 100`, `annual_rate_pct =
12`, `years = 1`, `payments_per_year = 12`, `extra_monthly = 0.0001 >
0`, the comparator completes without error but needs
`payoff_periods = 13 > 12 = base.periods`: the rounded base payment
plus the tiny extra is below the exact annuity payment, so the loan is
not repaid within the nominal term. -/
theorem payoff_periods_exceed_cex :
    ((prepay_vs_invest 100 12 1 (1/10000) 12 0).map fun e =>
      e.map fun res => (res.with_extra.payoff_periods, res.base.periods)) =
      some (.ok (13, 12)) ∧
    ¬ ((13:ℤ) ≤ 12) := by
  constructor
  · norm_num [prepay_vs_invest, amortization_schedule, annuityPayment, amLoop,
      amStep, amEntryOf, simLoop, cmpStep, cmpEntryOf, round2, round10, round1, pyRound,
      Except.map]
  · norm_num

/-- C7 (amended): `interest_saved ≥ 0` whenever `extra_monthly > 0`,
the payment remains sufficient (no error), and additionally (i) the
comparator's constant payment — the 2-decimal-rounded base payment plus
the scaled extra — is at least the exact annuity payment `A`, and (ii)
the baseline's reported `total_interest` is at least the ideal total
interest `n*A - principal`.  Without (i)-(ii) the property fails for
tiny extras (see the counterexample), because the comparator restarts
from the rounded base payment. -/
theorem interest_saved_nonneg
    (p apr : ℚ) (years ppy : ℕ) (extra invest : ℚ) (base : AmResult) (A : ℚ)
    (res : PrepayResult)
    (hp : 0 < p) (hapr : 0 ≤ apr) (hy : 1 ≤ years) (hppy : 1 ≤ ppy) (hextra : 0 < extra)
    (hbase : amortization_schedule p apr (years : ℚ) ppy = some base)
    (hA : annuityPayment p (apr/100) (apr/100/(ppy:ℚ)) ((years * ppy : ℕ) : ℤ) = some A)
    (hpay : A ≤ base.payment + extra * ((ppy:ℚ)/12))
    (hTI : ((years * ppy : ℕ) : ℚ) * A - p ≤ base.total_interest)
    (hok : prepay_vs_invest p apr years extra ppy invest = some (.ok res)) :
    0 ≤ res.interest_saved := by
  have hppyQ : (0:ℚ) < (ppy:ℚ) := by exact_mod_cast Nat.lt_of_lt_of_le Nat.zero_lt_one hppy
  have hrp : 0 ≤ apr/100/(ppy:ℚ) :=
    div_nonneg (div_nonneg hapr (by norm_num)) (le_of_lt hppyQ)
  have hlink0 : apr/100 = 0 → apr/100/(ppy:ℚ) = 0 := fun h => by rw [h, zero_div]
  have hlink1 : apr/100/(ppy:ℚ) = 0 → apr/100 = 0 := by
    intro h
    rcases div_eq_zero_iff.mp h with h' | h'
    · exact h'
    · exact absurd h' (ne_of_gt hppyQ)
  have hmpos : 0 < years * ppy := Nat.mul_pos (by omega) (by omega)
  have hiz := annuityPayment_ideal_zero p (apr/100) (apr/100/(ppy:ℚ)) A (years * ppy)
    hmpos hrp hlink0 hlink1 hA
  have hApos := annuityPayment_pos p (apr/100) (apr/100/(ppy:ℚ)) A (years * ppy)
    hmpos hp hrp hlink1 hA
  have hbounds := idealBal_bounds (apr/100/(ppy:ℚ)) A p hrp (le_of_lt hApos)
    (years * ppy) hiz
  have hmnn : ∀ j, j ≤ years * ppy → 0 ≤ idealBal (apr/100/(ppy:ℚ)) A p j :=
    fun j hj => (hbounds (years * ppy - j) j (by omega)).1
  unfold prepay_vs_invest at hok
  rw [hbase] at hok
  dsimp only at hok
  rcases hsim : simLoop (apr/100/(ppy:ℚ)) (years * ppy * 5) 0
      (base.payment + extra * ((ppy:ℚ)/12)) p with e | quad
  · rw [hsim] at hok
    exact absurd hok (by simp)
  · rcases quad with ⟨pf, T, ti, sch⟩
    rw [hsim] at hok
    dsimp only at hok
    simp only [Option.some.injEq, Except.ok.injEq] at hok
    subst hok
    obtain ⟨h0T, hTm, hti⟩ := simLoop_ideal_invariant (apr/100/(ppy:ℚ)) A
      (base.payment + extra * ((ppy:ℚ)/12)) hrp (le_of_lt hApos) hpay p (years * ppy)
      hmnn (by rw [hiz]; norm_num) (years * ppy * 5) 0 p pf T ti sch
      (le_of_eq rfl) (Nat.zero_le _) (by omega) hsim
    have hib0 : idealBal (apr/100/(ppy:ℚ)) A p 0 = p := rfl
    rw [hib0] at hti
    have hibT := (hbounds (years * ppy - T) T (by omega)).2
    rw [Nat.cast_sub hTm] at hibT
    dsimp only
    apply round2_nonneg
    push_cast at hti hibT hTI ⊢
    linarith

/-- Witness for C7 (amended), at `principal = 100`, rate 10%, 2 yearly
payments over 2 years, `extra_monthly = 10`. -/
theorem interest_saved_nonneg_witness :
    (0:ℚ) ≤
      ({ base := { periods := 2, payment := 2881/50, total_interest := 381/25,
                   schedule := [⟨1, 2881/50, 2381/50, 10, 2619/50⟩,
                                ⟨2, 2881/50, 2619/50, 131/25, 0⟩] },
         with_extra := { payment := 567/10, payoff_periods := 2,
                         total_interest := 303/20,
                         schedule_sample := [⟨1, 1169/20, 969/20, 10, 1031/20⟩,
                                             ⟨2, 567/10, 1031/20, 103/20, 0⟩] },
         payoff_months_equivalent := 24, interest_saved := 9/100,
         invest_future_value_of_extra := 240 } : PrepayResult).interest_saved :=
  interest_saved_nonneg 100 10 2 1 10 0
    { periods := 2, payment := 2881/50, total_interest := 381/25,
      schedule := [⟨1, 2881/50, 2381/50, 10, 2619/50⟩, ⟨2, 2881/50, 2619/50, 131/25, 0⟩] }
    (1210/21) _
    (by norm_num) (by norm_num) (by norm_num) (by norm_num) (by norm_num)
    (by norm_num [amortization_schedule, annuityPayment, amLoop, amStep, amEntryOf,
      round2, round10, pyRound])
    (by norm_num [annuityPayment])
    (by norm_num)
    (by norm_num)
    (by norm_num [prepay_vs_invest, amortization_schedule, annuityPayment, amLoop,
      amStep, amEntryOf, simLoop, cmpStep, cmpEntryOf, round2, round10, round1, pyRound])

/-- C8 (amended): `with_extra.payoff_periods ≤ base.periods` whenever
`extra_monthly > 0`, the payment remains sufficient (no error), and
additionally the comparator's constant payment (rounded base payment
plus scaled extra) is at least the exact annuity payment `A`; without
that condition the payoff can exceed the nominal term (see the
counterexample). -/
theorem payoff_periods_le
    (p apr : ℚ) (years ppy : ℕ) (extra invest : ℚ) (base : AmResult) (A : ℚ)
    (res : PrepayResult)
    (hp : 0 < p) (hapr : 0 ≤ apr) (hy : 1 ≤ years) (hppy : 1 ≤ ppy) (hextra : 0 < extra)
    (hbase : amortization_schedule p apr (years : ℚ) ppy = some base)
    (hA : annuityPayment p (apr/100) (apr/100/(ppy:ℚ)) ((years * ppy : ℕ) : ℤ) = some A)
    (hpay : A ≤ base.payment + extra * ((ppy:ℚ)/12))
    (hok : prepay_vs_invest p apr years extra ppy invest = some (.ok res)) :
    (res.with_extra.payoff_periods : ℤ) ≤ res.base.periods := by
  have hppyQ : (0:ℚ) < (ppy:ℚ) := by exact_mod_cast Nat.lt_of_lt_of_le Nat.zero_lt_one hppy
  have hrp : 0 ≤ apr/100/(ppy:ℚ) :=
    div_nonneg (div_nonneg hapr (by norm_num)) (le_of_lt hppyQ)
  have hlink0 : apr/100 = 0 → apr/100/(ppy:ℚ) = 0 := fun h => by rw [h, zero_div]
  have hlink1 : apr/100/(ppy:ℚ) = 0 → apr/100 = 0 := by
    intro h
    rcases div_eq_zero_iff.mp h with h' | h'
    · exact h'
    · exact absurd h' (ne_of_gt hppyQ)
  have hmpos : 0 < years * ppy := Nat.mul_pos (by omega) (by omega)
  have hiz := annuityPayment_ideal_zero p (apr/100) (apr/100/(ppy:ℚ)) A (years * ppy)
    hmpos hrp hlink0 hlink1 hA
  have hApos := annuityPayment_pos p (apr/100) (apr/100/(ppy:ℚ)) A (years * ppy)
    hmpos hp hrp hlink1 hA
  have hbounds := idealBal_bounds (apr/100/(ppy:ℚ)) A p hrp (le_of_lt hApos)
    (years * ppy) hiz
  have hmnn : ∀ j, j ≤ years * ppy → 0 ≤ idealBal (apr/100/(ppy:ℚ)) A p j :=
    fun j hj => (hbounds (years * ppy - j) j (by omega)).1
  obtain ⟨pay0, -, hbeq⟩ := amortization_schedule_some hbase
  unfold prepay_vs_invest at hok
  rw [hbase] at hok
  dsimp only at hok
  rcases hsim : simLoop (apr/100/(ppy:ℚ)) (years * ppy * 5) 0
      (base.payment + extra * ((ppy:ℚ)/12)) p with e | quad
  · rw [hsim] at hok
    exact absurd hok (by simp)
  · rcases quad with ⟨pf, T, ti, sch⟩
    rw [hsim] at hok
    dsimp only at hok
    simp only [Option.some.injEq, Except.ok.injEq] at hok
    subst hok
    obtain ⟨h0T, hTm, hti⟩ := simLoop_ideal_invariant (apr/100/(ppy:ℚ)) A
      (base.payment + extra * ((ppy:ℚ)/12)) hrp (le_of_lt hApos) hpay p (years * ppy)
      hmnn (by rw [hiz]; norm_num) (years * ppy * 5) 0 p pf T ti sch
      (le_of_eq rfl) (Nat.zero_le _) (by omega) hsim
    dsimp only
    have hper : base.periods = ((years * ppy : ℕ) : ℤ) := by
      rw [hbeq]
      dsimp only
      have hcast : (years : ℚ) * (ppy : ℚ) = ((years * ppy : ℕ) : ℚ) := by push_cast; ring
      rw [hcast, pyRound_natCast]
    rw [hper]
    exact_mod_cast hTm

/-- Witness for C8 (amended), at `principal = 100`, rate 10%, 2 yearly
payments over 2 years, `extra_monthly = 10`, `invest_rate_pct = 5`. -/
theorem payoff_periods_le_witness :
    ((({ base := { periods := 2, payment := 2881/50, total_interest := 381/25,
                   schedule := [⟨1, 2881/50, 2381/50, 10, 2619/50⟩,
                                ⟨2, 2881/50, 2619/50, 131/25, 0⟩] },
         with_extra := { payment := 567/10, payoff_periods := 2,
                         total_interest := 303/20,
                         schedule_sample := [⟨1, 1169/20, 969/20, 10, 1031/20⟩,
                                             ⟨2, 567/10, 1031/20, 103/20, 0⟩] },
         payoff_months_equivalent := 24, interest_saved := 9/100,
         invest_future_value_of_extra := 12593/50 } :
        PrepayResult).with_extra.payoff_periods : ℤ)) ≤
      ({ base := { periods := 2, payment := 2881/50, total_interest := 381/25,
                   schedule := [⟨1, 2881/50, 2381/50, 10, 2619/50⟩,
                                ⟨2, 2881/50, 2619/50, 131/25, 0⟩] },
         with_extra := { payment := 567/10, payoff_periods := 2,
                         total_interest := 303/20,
                         schedule_sample := [⟨1, 1169/20, 969/20, 10, 1031/20⟩,
                                             ⟨2, 567/10, 1031/20, 103/20, 0⟩] },
         payoff_months_equivalent := 24, interest_saved := 9/100,
         invest_future_value_of_extra := 12593/50 } : PrepayResult).base.periods :=
  payoff_periods_le 100 10 2 1 10 5
    { periods := 2, payment := 2881/50, total_interest := 381/25,
      schedule := [⟨1, 2881/50, 2381/50, 10, 2619/50⟩, ⟨2, 2881/50, 2619/50, 131/25, 0⟩] }
    (1210/21) _
    (by norm_num) (by norm_num) (by norm_num) (by norm_num) (by norm_num)
    (by norm_num [amortization_schedule, annuityPayment, amLoop, amStep, amEntryOf,
      round2, round10, pyRound])
    (by norm_num [annuityPayment])
    (by norm_num)
    (by norm_num [prepay_vs_invest, amortization_schedule, annuityPayment, amLoop,
      amStep, amEntryOf, simLoop, cmpStep, cmpEntryOf, round2, round10, round1, pyRound])

/-! ### Amended invariants of the amortization schedule -/

theorem abs_round10_sub (q : ℚ) : |round10 q - q| ≤ 1/(2 * 10^10) := by
  have h1 := le_round10 q
  have h2 := round10_le q
  rw [abs_le]
  constructor <;> linarith

/-- C4 (amended): for every valid input, every entry's
`remaining_balance` is non-negative; but the monotone non-increase and
zero-final-balance clauses do not hold for all valid inputs (they fail
for extreme rates, see the counterexample, where the displayed payment
no longer covers the interest): here they are verified on the
documented example `principal=100000, rate 6%, 1 year, 12 payments`. -/
theorem remaining_balance_nonneg_and_example :
    (∀ (p apr y : ℚ) (ppy : ℕ) (res : AmResult),
      amortization_schedule p apr y ppy = some res →
      ∀ e ∈ res.schedule, 0 ≤ e.remaining_balance) ∧
    ((amortization_schedule 100000 6 1 12).elim False fun res =>
      List.Chain' (fun a b : ℚ => b ≤ a) (res.schedule.map AmEntry.remaining_balance) ∧
      (res.schedule.map AmEntry.remaining_balance).getLast? = some 0) := by
  constructor
  · intro p apr y ppy res h e he
    obtain ⟨pay, _hpay, rfl⟩ := amortization_schedule_some h
    exact amLoop_remaining_nonneg _ _ _ _ _ _ e he
  · norm_num [amortization_schedule, annuityPayment, amLoop, amStep, amEntryOf,
      round2, round10, pyRound, List.chain'_cons]

/-- Witness for C4 (amended): the non-negativity clause applied to the
concrete schedule of `amortization_schedule 1 0 3 1`. -/
theorem remaining_balance_nonneg_and_example_witness :
    0 ≤ (AmEntry.mk 1 (33/100) (33/100) 0 (67/100)).remaining_balance :=
  remaining_balance_nonneg_and_example.1 1 0 3 1
    { periods := 3, payment := 33/100, total_interest := 0,
      schedule := [⟨1, 33/100, 33/100, 0, 67/100⟩, ⟨2, 33/100, 33/100, 0, 33/100⟩,
                   ⟨3, 33/100, 33/100, 0, 0⟩] }
    (by norm_num [amortization_schedule, annuityPayment, amLoop, amStep, amEntryOf,
        round2, round10, pyRound])
    ⟨1, 33/100, 33/100, 0, 67/100⟩ (by simp)

/-- C5 (amended): for every loop state, the sum of the displayed
`principal_paid` values differs from the principal actually amortized
(`initial balance - final internal balance`) by at most
`(schedule length) * (0.005 + 5e-11)` — each row rounds its
`principal_paid` to 2 decimals and each balance update rounds to 10
decimals.  Equality with the input principal within `0.01` is not a
general law (see the counterexample), but it does hold on the
documented example, whose displayed principals sum to exactly 100000. -/
theorem principal_roundtrip_bound :
    (∀ (r rp : ℚ) (fuel i : ℕ) (pay bal : ℚ),
      |((amLoop r rp fuel i pay bal).2.2.2.map AmEntry.principal_paid).sum -
        (bal - (amLoop r rp fuel i pay bal).2.1)| ≤
      ((amLoop r rp fuel i pay bal).2.2.2.length : ℚ) * (1/200 + 1/(2*10^10))) ∧
    ((amortization_schedule 100000 6 1 12).elim False fun res =>
      (res.schedule.map AmEntry.principal_paid).sum = 100000) := by
  constructor
  · intro r rp fuel
    induction fuel with
    | zero => intro i pay bal; simp [amLoop]
    | succ fuel ih =>
      intro i pay bal
      rw [amLoop]
      dsimp only
      have hbal : (amStep r rp pay bal).2.2.2 =
          round10 (bal - (amStep r rp pay bal).2.1) := rfl
      have hr10 : |(amStep r rp pay bal).2.2.2 - (bal - (amStep r rp pay bal).2.1)| ≤
          1/(2*10^10) := by
        rw [hbal]; exact abs_round10_sub _
      have hr2 : |round2 (amStep r rp pay bal).2.1 - (amStep r rp pay bal).2.1| ≤ 1/200 :=
        abs_round2_sub _
      rw [abs_le] at hr10 hr2
      split
      · simp only [amEntryOf, List.map_cons, List.map_nil, List.sum_cons, List.sum_nil,
          List.length_cons, List.length_nil]
        push_cast
        rw [abs_le]
        constructor <;> linarith [hr10.1, hr10.2, hr2.1, hr2.2]
      · have hrec := ih (i+1) (amStep r rp pay bal).2.2.1 (amStep r rp pay bal).2.2.2
        rw [abs_le] at hrec
        simp only [amEntryOf, List.map_cons, List.sum_cons, List.length_cons]
        push_cast
        rw [abs_le]
        constructor <;> linarith [hrec.1, hrec.2, hr10.1, hr10.2, hr2.1, hr2.2]
  · norm_num [amortization_schedule, annuityPayment, amLoop, amStep, amEntryOf,
      round2, round10, pyRound]

/-! ### C6 (amended): the zero-rate case -/

theorem amStep_zero_rate_interest (rp pay bal : ℚ) : (amStep 0 rp pay bal).1 = 0 := by
  simp [amStep]

theorem amLoop_zero_rate (rp : ℚ) :
    ∀ (fuel i : ℕ) (pay bal : ℚ),
      (amLoop 0 rp fuel i pay bal).2.2.1 = 0 ∧
      ∀ e ∈ (amLoop 0 rp fuel i pay bal).2.2.2, e.interest_paid = 0 := by
  intro fuel
  induction fuel with
  | zero => intro i pay bal; simp [amLoop]
  | succ fuel ih =>
    intro i pay bal
    rw [amLoop]
    dsimp only
    have hint : (amStep 0 rp pay bal).1 = 0 := amStep_zero_rate_interest rp pay bal
    have hentry : (amEntryOf i (amStep 0 rp pay bal)).interest_paid = 0 := by
      unfold amEntryOf
      dsimp only
      rw [hint, round2_zero]
    split
    · refine ⟨hint, ?_⟩
      intro e he
      simp only [List.mem_singleton] at he
      subst he
      exact hentry
    · have hrec := ih (i+1) (amStep 0 rp pay bal).2.2.1 (amStep 0 rp pay bal).2.2.2
      refine ⟨by rw [hint, hrec.1, add_zero], ?_⟩
      intro e he
      simp only [List.mem_cons] at he
      rcases he with rfl | he
      · exact hentry
      · exact hrec.2 e he

/-- C6 (amended): with `annual_rate_pct = 0`, the internally computed
annuity payment is exactly `principal / n` whenever `n ≥ 1` (the
returned `payment` field is that value rounded to 2 decimals, possibly
clamped on the final period, so the *returned* field need not equal
`principal / n` exactly — see the counterexample); `total_interest = 0`
and every period's `interest_paid` is `0`, for every valid input. -/
theorem zero_rate_amortization :
    (∀ (p y : ℚ) (ppy : ℕ) (res : AmResult),
      amortization_schedule p 0 y ppy = some res →
      res.total_interest = 0 ∧ ∀ e ∈ res.schedule, e.interest_paid = 0) ∧
    (∀ (p rp : ℚ) (n : ℤ), 0 < n → annuityPayment p 0 rp n = some (p / (n : ℚ))) := by
  constructor
  · intro p y ppy res h
    obtain ⟨pay, _hpay, rfl⟩ := amortization_schedule_some h
    simp only [zero_div] at *
    constructor
    · dsimp only
      rw [(amLoop_zero_rate _ _ _ _ _).1, round2_zero]
    · intro e he
      exact (amLoop_zero_rate _ _ _ _ _).2 e he
  · intro p rp n hn
    unfold annuityPayment
    rw [if_pos rfl, if_pos hn]

/-- Witness for C6 (amended): at `p = 5, years = 2, ppy = 1` the
annuity payment is `5/2` and the returned `total_interest` is 0. -/
theorem zero_rate_amortization_witness :
    annuityPayment 5 0 0 2 = some (5/2) ∧
    ({ periods := 2, payment := 5/2, total_interest := 0,
       schedule := [⟨1, 5/2, 5/2, 0, 5/2⟩, ⟨2, 5/2, 5/2, 0, 0⟩] } : AmResult).total_interest
      = 0 :=
  ⟨zero_rate_amortization.2 5 0 2 (by norm_num),
   (zero_rate_amortization.1 5 2 1
     { periods := 2, payment := 5/2, total_interest := 0,
       schedule := [⟨1, 5/2, 5/2, 0, 5/2⟩, ⟨2, 5/2, 5/2, 0, 0⟩] }
     (by norm_num [amortization_schedule, annuityPayment, amLoop, amStep, amEntryOf,
        round2, round10, pyRound])).1⟩

end FinNav
